import Mathlib

/-!
Shallow embedding of `client/bootloader_flash.py` (CVRA CAN bootloader
flashing client).

Commands are modelled as an inductive datatype.  The byte-level encoders
(`commands.encode_*`, the `can`, `can_bridge` and `serial_datagrams`
codecs, and `msgpack`) are external collaborators of the client, so a call
to `write_command` is recorded as an `Event` — the command together with
the destination list it was addressed to — rather than as wire bytes.
`zlib.crc32` and `msgpack.unpackb` are external library functions and
appear as function parameters.  The remote nodes are modelled by oracles
describing the outcome of each CRC round trip, and the serial read side by
an explicit list of framed-read outcomes.
-/

/-- Module-level constant `CHUNK_SIZE = 2048` of `bootloader_flash.py`. -/
def CHUNK_SIZE : Nat := 2048

/-- A config is a Python dict with string keys; the source only ever stores
integer values, and dict iteration order is insertion order, so a config is
modelled as an association list in insertion order. -/
abbrev Config := List (String × Nat)

/-- The six commands produced by the external `commands.encode_*`
collaborators.  The encoded payload is opaque to the client, so each
command is identified by its kind and the arguments the client passes to
its encoder. -/
inductive Command where
  | eraseFlashPage (address : Nat) (device_class : String)
  | writeFlash (chunk : List Nat) (address : Nat) (device_class : String)
  | updateConfig (config : Config)
  | saveConfig
  | crcRegion (base_address : Nat) (region_length : Nat)
  | jumpToMain
deriving DecidableEq, Repr

/-- One dispatched command: the command and the destination node list the
datagram was addressed to. -/
structure Event where
  command : Command
  destinations : List Nat
deriving DecidableEq, Repr

/-- `write_command(fdesc, command, destinations, source=0)`: encodes the
command and destinations into a datagram, fragments it into frames, wraps
and writes them, then sleeps 300 ms.  The encoding layers are external and
the sleep has no observable effect on the dispatched-command trace, so the
call is modelled as producing the dispatched `Event`. -/
def write_command (command : Command) (destinations : List Nat) : Event :=
  ⟨command, destinations⟩

/-- Fuel-indexed loop of `pythonRange`; the fuel only bounds the recursion
depth and is chosen large enough by the wrapper. -/
def pythonRangeAux (stop step : Nat) : Nat → Nat → List Nat
  | 0, _ => []
  | fuel + 1, start =>
    if step = 0 ∨ stop ≤ start then []
    else start :: pythonRangeAux stop step fuel (start + step)

/-- Python `range(start, stop, step)` for the nonnegative arguments used in
the source.  (`range` with `step = 0` raises `ValueError` in Python; it is
mapped to `[]` here and every theorem about the erase loop assumes a
positive step.) -/
def pythonRange (start stop step : Nat) : List Nat :=
  pythonRangeAux stop step (stop - start) start

/-- Fuel-indexed loop of `slice_into_pages`; the fuel only bounds the
recursion depth and is chosen large enough by the wrapper. -/
def sliceIntoPagesAux (page_size : Nat) : Nat → List Nat → List (List Nat)
  | 0, _ => []
  | fuel + 1, b =>
    if b = [] ∨ page_size = 0 then []
    else b.take page_size :: sliceIntoPagesAux page_size fuel (b.drop page_size)

/-- Modelled from the spec: `page.slice_into_pages(binary, page_size)`
(module `page` is not under `src/`) slices the image into consecutive
fixed-size chunks of `page_size` bytes, the last chunk possibly shorter. -/
def slice_into_pages (binary : List Nat) (page_size : Nat) : List (List Nat) :=
  sliceIntoPagesAux page_size binary.length binary

/-- Ceiling division on naturals, `ceil (a / b)`. -/
def ceil_div (a b : Nat) : Nat := (a + b - 1) / b

/-- `config_update_and_save(fdesc, config, destinations)`: first dispatch
the partial config update, then dispatch `save-config`. -/
def config_update_and_save (config : Config) (destinations : List Nat) :
    List Event :=
  [write_command (Command.updateConfig config) destinations,
   write_command Command.saveConfig destinations]

/-- `flash_binary(fdesc, binary, base_address, device_class, destinations,
page_size=2048)`: erase every page covering the image, write the image in
`CHUNK_SIZE` chunks, then update and save `application_size` and
`application_crc`.  The result is the trace of dispatched events in
dispatch order; `crc32` is the external `zlib.crc32`. -/
def flash_binary (crc32 : List Nat → Nat) (binary : List Nat)
    (base_address : Nat) (device_class : String) (destinations : List Nat)
    (page_size : Nat := 2048) : List Event :=
  ((pythonRange 0 binary.length page_size).map fun offset =>
    write_command (Command.eraseFlashPage (base_address + offset) device_class)
      destinations)
  ++ (((slice_into_pages binary CHUNK_SIZE).enum).map fun oc =>
    write_command
      (Command.writeFlash oc.2 (base_address + oc.1 * CHUNK_SIZE) device_class)
      destinations)
  ++ config_update_and_save
      [("application_size", binary.length), ("application_crc", crc32 binary)]
      destinations

section Arithmetic

lemma ceil_div_zero (n : Nat) : ceil_div 0 n = 0 := by
  unfold ceil_div
  cases n with
  | zero => rfl
  | succ m => exact Nat.div_eq_of_lt (by omega)

lemma ceil_div_rec (l n : Nat) (hn : 0 < n) (hl : 0 < l) :
    ceil_div l n = ceil_div (l - n) n + 1 := by
  unfold ceil_div
  rcases le_or_lt n l with h | h
  · have h1 : l + n - 1 = l - 1 + n := by omega
    have h2 : l - n + n - 1 = l - 1 := by omega
    rw [h1, h2, Nat.add_div_right _ hn]
  · have h1 : l - n = 0 := by omega
    have h2 : (0 + n - 1) / n = 0 := Nat.div_eq_of_lt (by omega)
    have h3 : l + n - 1 = l - 1 + 1 * n := by omega
    have h4 : (l - 1) / n = 0 := Nat.div_eq_of_lt (by omega)
    rw [h1, h2, h3, Nat.add_mul_div_right _ _ hn, h4]

lemma ceil_div_le_iff (l n k : Nat) (hn : 0 < n) :
    ceil_div l n ≤ k ↔ l ≤ k * n := by
  unfold ceil_div
  have h1 : ((l + n - 1) / n ≤ k) ↔ (l + n - 1) / n < k + 1 := by omega
  rw [h1, Nat.div_lt_iff_lt_mul hn]
  have h2 : (k + 1) * n = k * n + n := by ring
  omega

lemma mul_lt_of_lt_ceil_div (l n i : Nat) (hn : 0 < n)
    (h : i + 1 < ceil_div l n) : (i + 1) * n < l := by
  by_contra hc
  push_neg at hc
  have := (ceil_div_le_iff l n (i + 1) hn).mpr hc
  omega

end Arithmetic

section RangeAndSlicing

lemma pythonRangeAux_stopped (stop step fuel start : Nat)
    (h : step = 0 ∨ stop ≤ start) :
    pythonRangeAux stop step fuel start = [] := by
  cases fuel with
  | zero => rfl
  | succ f => rw [pythonRangeAux, if_pos h]

lemma pythonRangeAux_eq (stop step : Nat) (hs : 0 < step) :
    ∀ fuel start, stop - start ≤ fuel →
      pythonRangeAux stop step fuel start =
        (List.range (ceil_div (stop - start) step)).map
          (fun i => start + i * step) := by
  intro fuel
  induction fuel with
  | zero =>
    intro start h
    have h0 : stop - start = 0 := by omega
    rw [pythonRangeAux_stopped stop step 0 start (Or.inr (by omega)), h0,
      ceil_div_zero]
    simp
  | succ f ih =>
    intro start h
    by_cases hss : stop ≤ start
    · rw [pythonRangeAux_stopped stop step (f + 1) start (Or.inr hss)]
      have h0 : stop - start = 0 := by omega
      rw [h0, ceil_div_zero]
      simp
    · rw [pythonRangeAux, if_neg (by omega)]
      rw [ih (start + step) (by omega)]
      have h1 : stop - (start + step) = stop - start - step := by omega
      have h2 : ceil_div (stop - start) step =
          ceil_div (stop - start - step) step + 1 :=
        ceil_div_rec (stop - start) step hs (by omega)
      rw [h1, h2, List.range_succ_eq_map]
      simp only [List.map_cons, List.map_map]
      congr 1
      · simp
      · refine List.map_congr_left ?_
        intro a _
        simp only [Function.comp_apply, Nat.succ_eq_add_one]
        ring

lemma pythonRange_zero_eq (stop step : Nat) (hs : 0 < step) :
    pythonRange 0 stop step =
      (List.range (ceil_div stop step)).map (fun i => i * step) := by
  unfold pythonRange
  rw [pythonRangeAux_eq stop step hs (stop - 0) 0 (by omega)]
  simp

lemma sliceIntoPagesAux_eq (n : Nat) (hn : 0 < n) :
    ∀ fuel (b : List Nat), b.length ≤ fuel →
      sliceIntoPagesAux n fuel b =
        (List.range (ceil_div b.length n)).map
          (fun i => (b.drop (i * n)).take n) := by
  intro fuel
  induction fuel with
  | zero =>
    intro b hb
    have : b = [] := List.length_eq_zero.mp (by omega)
    subst this
    rw [List.length_nil, ceil_div_zero]
    rfl
  | succ f ih =>
    intro b hb
    cases b with
    | nil => rw [List.length_nil, ceil_div_zero]; rfl
    | cons a t =>
      rw [sliceIntoPagesAux, if_neg (by simp; omega)]
      rw [ih ((a :: t).drop n) (by rw [List.length_drop]; omega)]
      have hlen : 0 < (a :: t).length := by simp
      have h2 : ceil_div (a :: t).length n =
          ceil_div ((a :: t).length - n) n + 1 :=
        ceil_div_rec _ n hn hlen
      rw [List.length_drop, h2, List.range_succ_eq_map]
      simp only [List.map_cons, List.map_map]
      congr 1
      · simp
      · refine List.map_congr_left ?_
        intro i _
        simp only [Function.comp_apply, Nat.succ_eq_add_one, List.drop_drop]
        have h3 : n + i * n = (i + 1) * n := by ring
        rw [h3]

lemma slice_into_pages_eq (b : List Nat) (n : Nat) (hn : 0 < n) :
    slice_into_pages b n =
      (List.range (ceil_div b.length n)).map
        (fun i => (b.drop (i * n)).take n) := by
  unfold slice_into_pages
  exact sliceIntoPagesAux_eq n hn b.length b (le_refl _)

lemma slice_into_pages_flatten (b : List Nat) (n : Nat) (hn : 0 < n) :
    (slice_into_pages b n).flatten = b := by
  suffices H : ∀ fuel (l : List Nat), l.length ≤ fuel →
      (sliceIntoPagesAux n fuel l).flatten = l by
    exact H b.length b (le_refl _)
  intro fuel
  induction fuel with
  | zero =>
    intro l hl
    have : l = [] := List.length_eq_zero.mp (by omega)
    subst this
    rfl
  | succ f ih =>
    intro l hl
    cases l with
    | nil => rfl
    | cons a t =>
      rw [sliceIntoPagesAux, if_neg (by simp; omega)]
      rw [List.flatten_cons, ih ((a :: t).drop n) (by rw [List.length_drop]; omega)]
      exact List.take_append_drop n (a :: t)

end RangeAndSlicing

section CommandPredicates

/-- Kind test: is this an erase-page command. -/
def Command.isErase : Command → Bool
  | .eraseFlashPage _ _ => true
  | .writeFlash _ _ _ => false
  | .updateConfig _ => false
  | .saveConfig => false
  | .crcRegion _ _ => false
  | .jumpToMain => false

/-- Kind test: is this a write-flash command. -/
def Command.isWrite : Command → Bool
  | .eraseFlashPage _ _ => false
  | .writeFlash _ _ _ => true
  | .updateConfig _ => false
  | .saveConfig => false
  | .crcRegion _ _ => false
  | .jumpToMain => false

/-- Kind test: is this an update-config command. -/
def Command.isUpdateConfig : Command → Bool
  | .eraseFlashPage _ _ => false
  | .writeFlash _ _ _ => false
  | .updateConfig _ => true
  | .saveConfig => false
  | .crcRegion _ _ => false
  | .jumpToMain => false

/-- Kind test: is this a save-config command. -/
def Command.isSaveConfig : Command → Bool
  | .eraseFlashPage _ _ => false
  | .writeFlash _ _ _ => false
  | .updateConfig _ => false
  | .saveConfig => true
  | .crcRegion _ _ => false
  | .jumpToMain => false

/-- Kind test: is this a crc-region command. -/
def Command.isCrcRegion : Command → Bool
  | .eraseFlashPage _ _ => false
  | .writeFlash _ _ _ => false
  | .updateConfig _ => false
  | .saveConfig => false
  | .crcRegion _ _ => true
  | .jumpToMain => false

/-- Phase number of a command inside a flashing session: erase commands
come first, then writes, then the config update, then the config save. -/
def phase : Command → Nat
  | .eraseFlashPage _ _ => 0
  | .writeFlash _ _ _ => 1
  | .updateConfig _ => 2
  | .saveConfig => 3
  | .crcRegion _ _ => 4
  | .jumpToMain => 5

@[simp] lemma write_command_command (c : Command) (d : List Nat) :
    (write_command c d).command = c := rfl

@[simp] lemma write_command_destinations (c : Command) (d : List Nat) :
    (write_command c d).destinations = d := rfl

end CommandPredicates

section FlashNormalForm

lemma enum_map_range {α : Type} (n : Nat) (f : Nat → α) :
    ((List.range n).map f).enum = (List.range n).map fun i => (i, f i) := by
  rw [List.enum_eq_zip_range, List.length_map, List.length_range]
  have h : List.range n = (List.range n).map id := by simp
  nth_rewrite 1 [h]
  rw [List.zip_map']
  simp

/-- Normal form of the `flash_binary` trace: the erase events, then the
write events, then the update-config and save-config events. -/
lemma flash_binary_eq (crc32 : List Nat → Nat) (binary : List Nat) (B : Nat)
    (dc : String) (dests : List Nat) (P : Nat) (hP : 0 < P) :
    flash_binary crc32 binary B dc dests P =
      ((List.range (ceil_div binary.length P)).map fun i =>
        write_command (Command.eraseFlashPage (B + i * P) dc) dests)
      ++ ((List.range (ceil_div binary.length CHUNK_SIZE)).map fun i =>
        write_command
          (Command.writeFlash ((binary.drop (i * CHUNK_SIZE)).take CHUNK_SIZE)
            (B + i * CHUNK_SIZE) dc) dests)
      ++ [write_command (Command.updateConfig
            [("application_size", binary.length),
             ("application_crc", crc32 binary)]) dests,
          write_command Command.saveConfig dests] := by
  unfold flash_binary config_update_and_save
  rw [pythonRange_zero_eq binary.length P hP,
    slice_into_pages_eq binary CHUNK_SIZE (by decide),
    enum_map_range, List.map_map, List.map_map]
  rfl

end FlashNormalForm

section FlashFilters

lemma filter_erase_flash (crc32 : List Nat → Nat) (binary : List Nat)
    (B : Nat) (dc : String) (dests : List Nat) (P : Nat) (hP : 0 < P) :
    (flash_binary crc32 binary B dc dests P).filter
        (fun e => e.command.isErase) =
      (List.range (ceil_div binary.length P)).map
        (fun i => write_command (Command.eraseFlashPage (B + i * P) dc) dests) := by
  rw [flash_binary_eq crc32 binary B dc dests P hP, List.filter_append,
    List.filter_append]
  rw [List.filter_eq_self.mpr ?he, List.filter_eq_nil_iff.mpr ?hw,
    List.filter_eq_nil_iff.mpr ?hc]
  · simp
  case he =>
    intro a ha
    obtain ⟨i, _, rfl⟩ := List.mem_map.mp ha
    rfl
  case hw =>
    intro a ha
    obtain ⟨i, _, rfl⟩ := List.mem_map.mp ha
    simp [Command.isErase]
  case hc =>
    intro a ha
    simp only [List.mem_cons, List.not_mem_nil, or_false] at ha
    rcases ha with rfl | rfl
    · simp [Command.isErase]
    · simp [Command.isErase]

lemma filter_write_flash (crc32 : List Nat → Nat) (binary : List Nat)
    (B : Nat) (dc : String) (dests : List Nat) (P : Nat) (hP : 0 < P) :
    (flash_binary crc32 binary B dc dests P).filter
        (fun e => e.command.isWrite) =
      (List.range (ceil_div binary.length CHUNK_SIZE)).map
        (fun i => write_command
          (Command.writeFlash ((binary.drop (i * CHUNK_SIZE)).take CHUNK_SIZE)
            (B + i * CHUNK_SIZE) dc) dests) := by
  rw [flash_binary_eq crc32 binary B dc dests P hP, List.filter_append,
    List.filter_append]
  rw [List.filter_eq_nil_iff.mpr ?he, List.filter_eq_self.mpr ?hw,
    List.filter_eq_nil_iff.mpr ?hc]
  · simp
  case he =>
    intro a ha
    obtain ⟨i, _, rfl⟩ := List.mem_map.mp ha
    simp [Command.isWrite]
  case hw =>
    intro a ha
    obtain ⟨i, _, rfl⟩ := List.mem_map.mp ha
    rfl
  case hc =>
    intro a ha
    simp only [List.mem_cons, List.not_mem_nil, or_false] at ha
    rcases ha with rfl | rfl
    · simp [Command.isWrite]
    · simp [Command.isWrite]

lemma filter_update_config (crc32 : List Nat → Nat) (binary : List Nat)
    (B : Nat) (dc : String) (dests : List Nat) (P : Nat) (hP : 0 < P) :
    (flash_binary crc32 binary B dc dests P).filter
        (fun e => e.command.isUpdateConfig) =
      [write_command (Command.updateConfig
        [("application_size", binary.length),
         ("application_crc", crc32 binary)]) dests] := by
  rw [flash_binary_eq crc32 binary B dc dests P hP, List.filter_append,
    List.filter_append]
  rw [List.filter_eq_nil_iff.mpr ?he, List.filter_eq_nil_iff.mpr ?hw]
  · simp [List.filter, Command.isUpdateConfig]
  case he =>
    intro a ha
    obtain ⟨i, _, rfl⟩ := List.mem_map.mp ha
    simp [Command.isUpdateConfig]
  case hw =>
    intro a ha
    obtain ⟨i, _, rfl⟩ := List.mem_map.mp ha
    simp [Command.isUpdateConfig]

lemma filter_save_config (crc32 : List Nat → Nat) (binary : List Nat)
    (B : Nat) (dc : String) (dests : List Nat) (P : Nat) (hP : 0 < P) :
    (flash_binary crc32 binary B dc dests P).filter
        (fun e => e.command.isSaveConfig) =
      [write_command Command.saveConfig dests] := by
  rw [flash_binary_eq crc32 binary B dc dests P hP, List.filter_append,
    List.filter_append]
  rw [List.filter_eq_nil_iff.mpr ?he, List.filter_eq_nil_iff.mpr ?hw]
  · simp [List.filter, Command.isSaveConfig]
  case he =>
    intro a ha
    obtain ⟨i, _, rfl⟩ := List.mem_map.mp ha
    simp [Command.isSaveConfig]
  case hw =>
    intro a ha
    obtain ⟨i, _, rfl⟩ := List.mem_map.mp ha
    simp [Command.isSaveConfig]

end FlashFilters

lemma pairwise_le_map {α : Type} (l : List α) (g : α → Nat) (c : Nat)
    (h : ∀ a ∈ l, g a = c) : (l.map g).Pairwise (· ≤ ·) := by
  induction l with
  | nil => simp
  | cons a t ih =>
    simp only [List.map_cons, List.pairwise_cons]
    constructor
    · intro b hb
      obtain ⟨x, hx, rfl⟩ := List.mem_map.mp hb
      rw [h a (List.mem_cons_self a t), h x (List.mem_cons_of_mem a hx)]
    · exact ih (fun x hx => h x (List.mem_cons_of_mem a hx))

/-- C1: for every image and positive page size, `flash_binary` dispatches
exactly `ceil (L / CHUNK_SIZE)` write-flash commands with `CHUNK_SIZE =
2048`; the `i`-th carries exactly the image bytes from offset
`i * CHUNK_SIZE` (at most `CHUNK_SIZE` of them) at address
`base_address + i * CHUNK_SIZE`, addressed to all destinations; every
chunk except possibly the last has length `CHUNK_SIZE`; and the chunks in
index order concatenate back to the image. -/
theorem flash_write_chunking (crc32 : List Nat → Nat) (binary : List Nat)
    (B : Nat) (dc : String) (dests : List Nat) (P : Nat) (hP : 0 < P) :
    (flash_binary crc32 binary B dc dests P).filter
        (fun e => e.command.isWrite) =
      (List.range (ceil_div binary.length CHUNK_SIZE)).map
        (fun i => write_command
          (Command.writeFlash ((binary.drop (i * CHUNK_SIZE)).take CHUNK_SIZE)
            (B + i * CHUNK_SIZE) dc) dests)
    ∧ ((flash_binary crc32 binary B dc dests P).filter
        (fun e => e.command.isWrite)).length = ceil_div binary.length CHUNK_SIZE
    ∧ (∀ i, i + 1 < ceil_div binary.length CHUNK_SIZE →
        ((binary.drop (i * CHUNK_SIZE)).take CHUNK_SIZE).length = CHUNK_SIZE)
    ∧ ((List.range (ceil_div binary.length CHUNK_SIZE)).map
        (fun i => (binary.drop (i * CHUNK_SIZE)).take CHUNK_SIZE)).flatten
        = binary := by
  refine ⟨filter_write_flash crc32 binary B dc dests P hP, ?_, ?_, ?_⟩
  · rw [filter_write_flash crc32 binary B dc dests P hP, List.length_map,
      List.length_range]
  · intro i hi
    rw [List.length_take, List.length_drop]
    have h1 := mul_lt_of_lt_ceil_div binary.length CHUNK_SIZE i (by decide) hi
    have h2 : (i + 1) * CHUNK_SIZE = i * CHUNK_SIZE + CHUNK_SIZE := by ring
    omega
  · rw [← slice_into_pages_eq binary CHUNK_SIZE (by decide)]
    exact slice_into_pages_flatten binary CHUNK_SIZE (by decide)

/-- Witness for C1 at a concrete input. -/
theorem flash_write_chunking_witness :
    0 < 2048 ∧
      ((flash_binary (fun _ => 9) [1, 2, 3] 100 "dc" [7] 2048).filter
        (fun e => e.command.isWrite)).length =
        ceil_div (List.length [1, 2, 3]) CHUNK_SIZE :=
  ⟨by decide, (flash_write_chunking (fun _ => 9) [1, 2, 3] 100 "dc" [7] 2048
    (by decide)).2.1⟩

/-- C2: for every image of length `L`, base address `B` and positive page
size `P`, `flash_binary` dispatches exactly `ceil (L / P)` erase-page
commands, one for each address `B + i * P` with `i * P < L`, each
addressed to all destinations, in offset order. -/
theorem flash_erase_schedule (crc32 : List Nat → Nat) (binary : List Nat)
    (B : Nat) (dc : String) (dests : List Nat) (P : Nat) (hP : 0 < P) :
    (flash_binary crc32 binary B dc dests P).filter
        (fun e => e.command.isErase) =
      (List.range (ceil_div binary.length P)).map
        (fun i => write_command (Command.eraseFlashPage (B + i * P) dc) dests)
    ∧ ((flash_binary crc32 binary B dc dests P).filter
        (fun e => e.command.isErase)).length = ceil_div binary.length P := by
  refine ⟨filter_erase_flash crc32 binary B dc dests P hP, ?_⟩
  rw [filter_erase_flash crc32 binary B dc dests P hP, List.length_map,
    List.length_range]

/-- Witness for C2 at a concrete input. -/
theorem flash_erase_schedule_witness :
    0 < 2048 ∧
      ((flash_binary (fun _ => 9) [1, 2, 3] 100 "dc" [7] 2048).filter
        (fun e => e.command.isErase)).length =
        ceil_div (List.length [1, 2, 3]) 2048 :=
  ⟨by decide, (flash_erase_schedule (fun _ => 9) [1, 2, 3] 100 "dc" [7] 2048
    (by decide)).2⟩

/-- C3: for every image, the finalize step of `flash_binary` dispatches to
all destinations exactly one update-config command whose config holds
exactly the two keys `application_size` (the image length) and
`application_crc` (the CRC32 of the whole image), followed by the
save-config command, both via `config_update_and_save`. -/
theorem flash_finalize_config (crc32 : List Nat → Nat) (binary : List Nat)
    (B : Nat) (dc : String) (dests : List Nat) (P : Nat) (hP : 0 < P) :
    (flash_binary crc32 binary B dc dests P).filter
        (fun e => e.command.isUpdateConfig) =
      [write_command (Command.updateConfig
        [("application_size", binary.length),
         ("application_crc", crc32 binary)]) dests]
    ∧ (flash_binary crc32 binary B dc dests P).filter
        (fun e => e.command.isSaveConfig) =
      [write_command Command.saveConfig dests] :=
  ⟨filter_update_config crc32 binary B dc dests P hP,
   filter_save_config crc32 binary B dc dests P hP⟩

/-- Witness for C3 at a concrete input. -/
theorem flash_finalize_config_witness :
    0 < 2048 ∧
      (flash_binary (fun _ => 9) [1, 2, 3] 100 "dc" [7] 2048).filter
        (fun e => e.command.isUpdateConfig) =
      [write_command (Command.updateConfig
        [("application_size", List.length [1, 2, 3]),
         ("application_crc", 9)]) [7]] :=
  ⟨by decide, (flash_finalize_config (fun _ => 9) [1, 2, 3] 100 "dc" [7] 2048
    (by decide)).1⟩

/-- C4: the `flash_binary` trace is strictly phase-ordered — every
erase-page command precedes every write-flash command, every write-flash
command precedes the update-config command, and the update-config command
precedes the single save-config command, which is the final dispatched
command of the flash. -/
theorem flash_phase_order (crc32 : List Nat → Nat) (binary : List Nat)
    (B : Nat) (dc : String) (dests : List Nat) (P : Nat) (hP : 0 < P) :
    ((flash_binary crc32 binary B dc dests P).map
        (fun e => phase e.command)).Pairwise (· ≤ ·)
    ∧ ((flash_binary crc32 binary B dc dests P).filter
        (fun e => e.command.isUpdateConfig)).length = 1
    ∧ ((flash_binary crc32 binary B dc dests P).filter
        (fun e => e.command.isSaveConfig)).length = 1
    ∧ (flash_binary crc32 binary B dc dests P).getLast? =
        some (write_command Command.saveConfig dests) := by
  refine ⟨?_, ?_, ?_, ?_⟩
  · rw [flash_binary_eq crc32 binary B dc dests P hP, List.map_append,
      List.map_append, List.map_map, List.map_map]
    refine List.pairwise_append.mpr
      ⟨List.pairwise_append.mpr ⟨?_, ?_, ?_⟩, ?_, ?_⟩
    · exact pairwise_le_map _ _ 0 (fun a _ => rfl)
    · exact pairwise_le_map _ _ 1 (fun a _ => rfl)
    · intro x hx y hy
      obtain ⟨i, _, rfl⟩ := List.mem_map.mp hx
      obtain ⟨j, _, rfl⟩ := List.mem_map.mp hy
      exact Nat.zero_le _
    · simp [phase, List.pairwise_cons]
    · intro x hx y hy
      simp only [List.map_cons, List.map_nil, List.mem_cons,
        List.not_mem_nil, or_false] at hy
      rcases List.mem_append.mp hx with hx' | hx' <;>
        obtain ⟨i, _, rfl⟩ := List.mem_map.mp hx' <;>
        rcases hy with rfl | rfl <;>
        simp [phase]
  · rw [filter_update_config crc32 binary B dc dests P hP]
    rfl
  · rw [filter_save_config crc32 binary B dc dests P hP]
    rfl
  · rw [flash_binary_eq crc32 binary B dc dests P hP]
    have h : ∀ (A W : List Event) (u s : Event),
        A ++ W ++ [u, s] = (A ++ (W ++ [u])) ++ [s] := by
      intro A W u s
      simp
    rw [h, List.getLast?_concat]

/-- Witness for C4 at a concrete input. -/
theorem flash_phase_order_witness :
    0 < 2048 ∧
      (flash_binary (fun _ => 9) [1, 2, 3] 100 "dc" [7] 2048).getLast? =
        some (write_command Command.saveConfig [7]) :=
  ⟨by decide, (flash_phase_order (fun _ => 9) [1, 2, 3] 100 "dc" [7] 2048
    (by decide)).2.2.2⟩

section Verifier

/-- `check_binary(fdesc, binary, base_address, destinations)`: for each
destination in order, perform the `crc_region` round trip and collect the
nodes whose reported CRC equals `crc32(binary)`.

The round trip is abstracted by `oracle`: `oracle node = some c` means the
round trip for `node` completes and returns `c`; `oracle node = none`
means control never comes back to the loop — in the source this happens
when the node never answers (`read_can_datagram` retries its framed read
forever) or when the transport or decoding layer raises, which propagates
out of `check_binary` uncaught.  The first component is the trace of
dispatched crc-region events; the second is `some valid_nodes` when the
loop ran to completion and `none` when it was cut short. -/
def check_binary (crc32 : List Nat → Nat) (oracle : Nat → Option Nat)
    (binary : List Nat) (base_address : Nat) :
    List Nat → List Event × Option (List Nat)
  | [] => ([], some [])
  | node :: rest =>
    match oracle node with
    | none =>
      ([write_command (Command.crcRegion base_address binary.length) [node]],
       none)
    | some c =>
      let r := check_binary crc32 oracle binary base_address rest
      (write_command (Command.crcRegion base_address binary.length) [node]
         :: r.1,
       r.2.map (fun vs => if c = crc32 binary then node :: vs else vs))

lemma check_binary_total (crc32 : List Nat → Nat) (oracle : Nat → Option Nat)
    (binary : List Nat) (B : Nat) :
    ∀ dests : List Nat, (∀ n ∈ dests, (oracle n).isSome = true) →
      (check_binary crc32 oracle binary B dests).1 =
        dests.map
          (fun n => write_command (Command.crcRegion B binary.length) [n])
      ∧ (check_binary crc32 oracle binary B dests).2 =
        some (dests.filter (fun n => oracle n == some (crc32 binary))) := by
  intro dests
  induction dests with
  | nil => intro _; exact ⟨rfl, rfl⟩
  | cons node rest ih =>
    intro h
    have hnode : (oracle node).isSome = true := h node (List.mem_cons_self _ _)
    obtain ⟨c, hc⟩ := Option.isSome_iff_exists.mp hnode
    have hrest := ih (fun n hn => h n (List.mem_cons_of_mem _ hn))
    constructor
    · show (check_binary crc32 oracle binary B (node :: rest)).1 = _
      rw [check_binary, hc]
      simp only [List.map_cons]
      rw [hrest.1]
    · show (check_binary crc32 oracle binary B (node :: rest)).2 = _
      rw [check_binary, hc]
      simp only [List.filter_cons]
      rw [hrest.2]
      by_cases hmatch : c = crc32 binary
      · subst hmatch
        rw [if_pos (by simp [hc])]
        simp [Option.map_some']
      · rw [if_neg (by simp [hc, hmatch])]
        simp [Option.map_some', hmatch]

lemma check_binary_events (crc32 : List Nat → Nat) (oracle : Nat → Option Nat)
    (binary : List Nat) (B : Nat) :
    ∀ dests : List Nat, ∀ e ∈ (check_binary crc32 oracle binary B dests).1,
      ∃ n ∈ dests, e = write_command (Command.crcRegion B binary.length) [n] := by
  intro dests
  induction dests with
  | nil => intro e he; cases he
  | cons node rest ih =>
    intro e he
    rw [check_binary] at he
    cases hc : oracle node with
    | none =>
      rw [hc] at he
      simp only [List.mem_singleton] at he
      exact ⟨node, List.mem_cons_self _ _, he⟩
    | some c =>
      rw [hc] at he
      simp only [List.mem_cons] at he
      rcases he with rfl | he
      · exact ⟨node, List.mem_cons_self _ _, rfl⟩
      · obtain ⟨n, hn, rfl⟩ := ih e he
        exact ⟨n, List.mem_cons_of_mem _ hn, rfl⟩

end Verifier

/-- C5 counterexample: with destinations `[1, 2]`, where node 1's round
trip never completes (it never answers, or the transport raises) and node
2's stored CRC matches, the loop stops at node 1: the only dispatched
query targets node 1, node 2 is never queried, and the matching subset
`[2]` is not returned — so a failure on one destination does prevent
querying the others. -/
theorem check_binary_not_independent :
    (check_binary (fun _ => 7) (fun n => if n = 2 then some 7 else none)
      [0] 0 [1, 2]).1 =
      [write_command (Command.crcRegion 0 1) [1]]
    ∧ write_command (Command.crcRegion 0 1) [2] ∉
      (check_binary (fun _ => 7) (fun n => if n = 2 then some 7 else none)
        [0] 0 [1, 2]).1
    ∧ (check_binary (fun _ => 7) (fun n => if n = 2 then some 7 else none)
      [0] 0 [1, 2]).2 ≠ some [2] := by
  decide

/-- C5 (amended): `check_binary` dispatches one crc-region query per
destination, in order, and returns exactly the subset of destinations
whose reported CRC equals the locally computed CRC32 — a mismatch on one
destination does not prevent querying the others — provided every round
trip completes; a round trip that never completes (unresponsive node or a
propagated transport error) stops the loop, so the remaining destinations
are not queried. -/
theorem check_binary_matching_subset (crc32 : List Nat → Nat)
    (oracle : Nat → Option Nat) (binary : List Nat) (B : Nat)
    (dests : List Nat) (h : ∀ n ∈ dests, (oracle n).isSome = true) :
    (check_binary crc32 oracle binary B dests).1 =
      dests.map
        (fun n => write_command (Command.crcRegion B binary.length) [n])
    ∧ (check_binary crc32 oracle binary B dests).2 =
      some (dests.filter (fun n => oracle n == some (crc32 binary))) :=
  check_binary_total crc32 oracle binary B dests h

/-- Witness for the amended C5 at a concrete input. -/
theorem check_binary_matching_subset_witness :
    (∀ n ∈ [1, 2],
      ((fun m => if m = 1 then some 7 else some 5) n).isSome = true)
    ∧ (check_binary (fun _ => 7)
        (fun m => if m = 1 then some 7 else some 5) [0] 0 [1, 2]).2 =
      some [1] :=
  ⟨by decide, (check_binary_matching_subset (fun _ => 7)
    (fun m => if m = 1 then some 7 else some 5) [0] 0 [1, 2] (by decide)).2⟩

section DatagramReader

/-- `read_can_datagram(fdesc)`: loop reading framed units and accumulating
their payload bytes in `buf` until the accumulator decodes as a complete
datagram.

`reads` is the stream of outcomes of the successive
`serial_datagrams.read_datagram` calls: `none` is a read timeout, `some f`
a received framed unit.  `decode_frame` models
`can_bridge.decode_frame(...).data` and `decode_datagram` models
`can.decode_datagram` (returning `none` while the accumulated bytes are
not yet a complete datagram, and a `(data, source)` pair once they are).
The Python loop runs forever; the `reads` list is a finite observation
window, and a `none` result means the call has not returned within that
window. -/
def read_can_datagram (decode_frame : List Nat → List Nat)
    (decode_datagram : List Nat → Option (List Nat × Nat)) :
    List (Option (List Nat)) → List Nat → Option (List Nat × Nat)
  | [], _ => none
  | none :: rest, buf => read_can_datagram decode_frame decode_datagram rest buf
  | some f :: rest, buf =>
    match decode_datagram (buf ++ decode_frame f) with
    | some d => some d
    | none =>
      read_can_datagram decode_frame decode_datagram rest
        (buf ++ decode_frame f)

lemma read_skip_timeout (df : List Nat → List Nat)
    (dd : List Nat → Option (List Nat × Nat))
    (rest : List (Option (List Nat))) (buf : List Nat) :
    read_can_datagram df dd (none :: rest) buf =
      read_can_datagram df dd rest buf := rfl

lemma read_all_timeouts (df : List Nat → List Nat)
    (dd : List Nat → Option (List Nat × Nat)) :
    ∀ (n : Nat) (buf : List Nat),
      read_can_datagram df dd (List.replicate n none) buf = none := by
  intro n
  induction n with
  | zero => intro buf; rfl
  | succ m ih =>
    intro buf
    rw [List.replicate_succ, read_skip_timeout]
    exact ih buf

lemma read_some_decodes (df : List Nat → List Nat)
    (dd : List Nat → Option (List Nat × Nat)) :
    ∀ (reads : List (Option (List Nat))) (buf : List Nat)
      (d : List Nat × Nat),
      read_can_datagram df dd reads buf = some d →
      ∃ bytes, dd bytes = some d := by
  intro reads
  induction reads with
  | nil =>
    intro buf d h
    exact Option.noConfusion h
  | cons r rest ih =>
    intro buf d h
    cases r with
    | none => exact ih buf d h
    | some f =>
      rw [read_can_datagram] at h
      cases hdd : dd (buf ++ df f) with
      | some e =>
        rw [hdd] at h
        simp only [Option.some.injEq] at h
        exact ⟨buf ++ df f, by rw [hdd, h]⟩
      | none =>
        rw [hdd] at h
        exact ih _ d h

lemma read_payload_congr (df : List Nat → List Nat)
    (dd dd' : List Nat → Option (List Nat × Nat))
    (hpl : ∀ b, (dd b).map Prod.fst = (dd' b).map Prod.fst) :
    ∀ (reads : List (Option (List Nat))) (buf : List Nat),
      (read_can_datagram df dd reads buf).map Prod.fst =
        (read_can_datagram df dd' reads buf).map Prod.fst := by
  intro reads
  induction reads with
  | nil => intro buf; rfl
  | cons r rest ih =>
    intro buf
    cases r with
    | none => exact ih buf
    | some f =>
      rw [read_can_datagram, read_can_datagram]
      have h := hpl (buf ++ df f)
      cases hdd : dd (buf ++ df f) with
      | some e =>
        rw [hdd] at h
        cases hdd' : dd' (buf ++ df f) with
        | some e' =>
          rw [hdd'] at h
          simp only [Option.map_some'] at h ⊢
          rw [h]
        | none => rw [hdd'] at h; exact Option.noConfusion h
      | none =>
        rw [hdd] at h
        cases hdd' : dd' (buf ++ df f) with
        | some e' => rw [hdd'] at h; exact Option.noConfusion h
        | none => exact ih (buf ++ df f)

lemma read_first_complete (df : List Nat → List Nat)
    (dd : List Nat → Option (List Nat × Nat)) :
    ∀ (pre : List (Option (List Nat))), (∀ r ∈ pre, r = none) →
      ∀ (f : List Nat) (d : List Nat × Nat) rest, dd (df f) = some d →
        read_can_datagram df dd (pre ++ some f :: rest) [] = some d := by
  intro pre
  induction pre with
  | nil =>
    intro _ f d rest hd
    rw [List.nil_append, read_can_datagram, List.nil_append, hd]
  | cons r pre ih =>
    intro hpre f d rest hd
    have hr : r = none := hpre r (List.mem_cons_self _ _)
    subst hr
    rw [List.cons_append, read_skip_timeout]
    exact ih (fun x hx => hpre x (List.mem_cons_of_mem _ hx)) f d rest hd

end DatagramReader

/-- C7: `read_can_datagram` neither returns nor raises on a read timeout:
a timed-out framed read is simply skipped and the loop retries, any
number of consecutive timeouts leaves the call still waiting (so with a
permanently unresponsive remote the call never terminates, whatever
finite observation window is chosen), and the call returns a datagram
only when some accumulated byte string decodes as that complete
datagram. -/
theorem read_can_datagram_retries_forever (df : List Nat → List Nat)
    (dd : List Nat → Option (List Nat × Nat)) :
    (∀ (rest : List (Option (List Nat))) (buf : List Nat),
      read_can_datagram df dd (none :: rest) buf =
        read_can_datagram df dd rest buf)
    ∧ (∀ (n : Nat) (buf : List Nat),
      read_can_datagram df dd (List.replicate n none) buf = none)
    ∧ (∀ (reads : List (Option (List Nat))) (buf : List Nat)
        (d : List Nat × Nat),
      read_can_datagram df dd reads buf = some d →
      ∃ bytes, dd bytes = some d) :=
  ⟨read_skip_timeout df dd, read_all_timeouts df dd, read_some_decodes df dd⟩

/-- Witness for C7 at a concrete input. -/
theorem read_can_datagram_retries_forever_witness :
    read_can_datagram id
      (fun b : List Nat => if b = [1] then some (([1] : List Nat), (0 : Nat))
        else none) [some [1]] [] = some ([1], 0)
    ∧ ∃ bytes, (fun b : List Nat =>
        if b = [1] then some (([1] : List Nat), (0 : Nat)) else none) bytes =
        some ([1], 0) :=
  ⟨by decide,
   (read_can_datagram_retries_forever id
     (fun b : List Nat => if b = [1] then some (([1] : List Nat), (0 : Nat))
       else none)).2.2 [some [1]] [] ([1], 0) (by decide)⟩

/-- `crc_region(fdesc, base_address, length, destination)`: dispatch a
crc-region command to the single given destination, then block on
`read_can_datagram` and return `msgpack.unpackb` of the payload of the
datagram it yields (`answer, _ = read_can_datagram(fdesc)` discards the
source).  `unpackb` models `msgpack.unpackb`; the first component is the
dispatched event list, the second the returned CRC (within the `reads`
observation window). -/
def crc_region (decode_frame : List Nat → List Nat)
    (decode_datagram : List Nat → Option (List Nat × Nat))
    (unpackb : List Nat → Nat) (reads : List (Option (List Nat)))
    (base_address region_length destination : Nat) : List Event × Option Nat :=
  ([write_command (Command.crcRegion base_address region_length)
      [destination]],
   (read_can_datagram decode_frame decode_datagram reads []).map
     (fun d => unpackb d.1))

/-- C6: `crc_region` dispatches the crc-region command to exactly the one
given destination (a singleton destination list), and the returned CRC is
the decoded payload of the next complete datagram received after the
request, with no correlation check: the result does not depend on which
destination was asked, does not depend on the datagram's source field,
and the first complete datagram after the request — whatever arrives
later — is taken as the answer. -/
theorem crc_region_single_destination (df : List Nat → List Nat)
    (dd : List Nat → Option (List Nat × Nat)) (u : List Nat → Nat)
    (reads : List (Option (List Nat))) (B L dest : Nat) :
    (crc_region df dd u reads B L dest).1 =
      [write_command (Command.crcRegion B L) [dest]]
    ∧ (∀ dest', (crc_region df dd u reads B L dest').2 =
        (crc_region df dd u reads B L dest).2)
    ∧ (∀ dd' : List Nat → Option (List Nat × Nat),
        (∀ b, (dd b).map Prod.fst = (dd' b).map Prod.fst) →
        (crc_region df dd' u reads B L dest).2 =
          (crc_region df dd u reads B L dest).2)
    ∧ (∀ (pre : List (Option (List Nat))) (f : List Nat)
        (d : List Nat × Nat) rest,
        (∀ r ∈ pre, r = none) → dd (df f) = some d →
        (crc_region df dd u (pre ++ some f :: rest) B L dest).2 =
          some (u d.1)) := by
  refine ⟨rfl, fun dest' => rfl, ?_, ?_⟩
  · intro dd' hpl
    show (read_can_datagram df dd' reads []).map (fun d => u d.1) =
      (read_can_datagram df dd reads []).map (fun d => u d.1)
    have h := read_payload_congr df dd dd' hpl reads []
    have e : ∀ x : Option (List Nat × Nat),
        x.map (fun d => u d.1) = (x.map Prod.fst).map u := by
      intro x; cases x <;> rfl
    rw [e, e, ← h]
  · intro pre f d rest hpre hd
    show (read_can_datagram df dd (pre ++ some f :: rest) []).map
      (fun d => u d.1) = some (u d.1)
    rw [read_first_complete df dd pre hpre f d rest hd]
    rfl

/-- Witness for C6 at a concrete input. -/
theorem crc_region_single_destination_witness :
    (crc_region id
        (fun b : List Nat => if b = [5] then some (([9] : List Nat), (3 : Nat))
          else none)
        (fun l => l.headD 0) [none, some [5]] 1 2 4).1 =
      [write_command (Command.crcRegion 1 2) [4]]
    ∧ (∀ r ∈ [(none : Option (List Nat))], r = none)
    ∧ (fun b : List Nat => if b = [5] then some (([9] : List Nat), (3 : Nat))
        else none) (id [5]) = some ([9], 3)
    ∧ (crc_region id
        (fun b : List Nat => if b = [5] then some (([9] : List Nat), (3 : Nat))
          else none)
        (fun l => l.headD 0) ([none] ++ some [5] :: []) 1 2 4).2 = some 9 :=
  ⟨(crc_region_single_destination id
      (fun b : List Nat => if b = [5] then some (([9] : List Nat), (3 : Nat))
        else none)
      (fun l => l.headD 0) [none, some [5]] 1 2 4).1,
   by decide, by decide,
   (crc_region_single_destination id
      (fun b : List Nat => if b = [5] then some (([9] : List Nat), (3 : Nat))
        else none)
      (fun l => l.headD 0) [none, some [5]] 1 2 4).2.2.2 [none] [5] ([9], 3) []
      (by decide) (by decide)⟩

section Main

/-- `run_application(fdesc, destinations)`: dispatch `jump-to-main` to the
given destinations. -/
def run_application (destinations : List Nat) : Event :=
  write_command Command.jumpToMain destinations

/-- Outcome of one run of `main()` after the binary has been read:
`completed` is the normal return (process exit status 0), carrying the
full dispatched-event trace; `verificationFailed` is the
`verification_failed` path, which prints the set of failing node IDs and
calls `exit(1)`; `aborted` is a session cut short inside `check_binary`
(a node that never answers leaves the process blocked forever, a
transport or decode error propagates as an uncaught exception), so the
controlled exit paths are never reached. -/
inductive MainOutcome where
  | completed (trace : List Event)
  | verificationFailed (trace : List Event) (failed : Finset Nat)
  | aborted (trace : List Event)

/-- The dispatched-event trace of an outcome. -/
def MainOutcome.trace : MainOutcome → List Event
  | completed t => t
  | verificationFailed t _ => t
  | aborted t => t

/-- Process exit status of an outcome: 0 for a normal return, 1 for the
`verification_failed` path, `none` when the controlled exit paths are
never reached. -/
def MainOutcome.exitCode : MainOutcome → Option Nat
  | completed _ => some 0
  | verificationFailed _ _ => some 1
  | aborted _ => none

/-- The body of `main()` after reading the binary: flash, verify, compare
the valid-node set with the requested-ID set (Python compares the two
`set(...)` values, modelled as `Finset`), then either report the failing
IDs and exit 1, or optionally dispatch `jump-to-main` when `--run` was
given.  `oracle` abstracts the per-node CRC round trip as in
`check_binary`. -/
def main_model (crc32 : List Nat → Nat) (oracle : Nat → Option Nat)
    (binary : List Nat) (base_address : Nat) (device_class : String)
    (run : Bool) (ids : List Nat) : MainOutcome :=
  match (check_binary crc32 oracle binary base_address ids).2 with
  | none =>
    MainOutcome.aborted
      (flash_binary crc32 binary base_address device_class ids
        ++ (check_binary crc32 oracle binary base_address ids).1)
  | some valid =>
    if valid.toFinset = ids.toFinset then
      if run then
        MainOutcome.completed
          (flash_binary crc32 binary base_address device_class ids
            ++ (check_binary crc32 oracle binary base_address ids).1
            ++ [run_application ids])
      else
        MainOutcome.completed
          (flash_binary crc32 binary base_address device_class ids
            ++ (check_binary crc32 oracle binary base_address ids).1)
    else
      MainOutcome.verificationFailed
        (flash_binary crc32 binary base_address device_class ids
          ++ (check_binary crc32 oracle binary base_address ids).1)
        (ids.toFinset \ valid.toFinset)

lemma filter_toFinset_eq_iff (ids : List Nat) (p : Nat → Bool) :
    (ids.filter p).toFinset = ids.toFinset ↔ ∀ n ∈ ids, p n = true := by
  constructor
  · intro h n hn
    have h2 : n ∈ (ids.filter p).toFinset := by
      rw [h]
      exact List.mem_toFinset.mpr hn
    exact (List.mem_filter.mp (List.mem_toFinset.mp h2)).2
  · intro h
    ext n
    simp only [List.mem_toFinset, List.mem_filter]
    constructor
    · rintro ⟨hn, _⟩
      exact hn
    · intro hn
      exact ⟨hn, h n hn⟩

lemma toFinset_sdiff_filter (ids : List Nat) (p : Nat → Bool) :
    ids.toFinset \ (ids.filter p).toFinset =
      (ids.filter (fun n => !(p n))).toFinset := by
  ext n
  constructor
  · intro h
    have hn : n ∈ ids := List.mem_toFinset.mp (Finset.mem_sdiff.mp h).1
    have hno : n ∉ (ids.filter p).toFinset := (Finset.mem_sdiff.mp h).2
    refine List.mem_toFinset.mpr (List.mem_filter.mpr ⟨hn, ?_⟩)
    cases hp : p n with
    | false => rw [Bool.not_eq_true']
    | true =>
      exact absurd (List.mem_toFinset.mpr (List.mem_filter.mpr ⟨hn, hp⟩)) hno
  · intro h
    have hmem := List.mem_filter.mp (List.mem_toFinset.mp h)
    refine Finset.mem_sdiff.mpr ⟨List.mem_toFinset.mpr hmem.1, ?_⟩
    intro hx
    have hp := (List.mem_filter.mp (List.mem_toFinset.mp hx)).2
    have hq := hmem.2
    rw [Bool.not_eq_true'] at hq
    rw [hp] at hq
    exact Bool.noConfusion hq

end Main

section MainLemmas

lemma main_model_total (crc32 : List Nat → Nat) (oracle : Nat → Option Nat)
    (binary : List Nat) (B : Nat) (dc : String) (run : Bool)
    (ids : List Nat) (hresp : ∀ n ∈ ids, (oracle n).isSome = true) :
    main_model crc32 oracle binary B dc run ids =
      (if (ids.filter (fun n => oracle n == some (crc32 binary))).toFinset
          = ids.toFinset then
        (if run then
          MainOutcome.completed (flash_binary crc32 binary B dc ids
            ++ ids.map (fun n =>
              write_command (Command.crcRegion B binary.length) [n])
            ++ [run_application ids])
        else
          MainOutcome.completed (flash_binary crc32 binary B dc ids
            ++ ids.map (fun n =>
              write_command (Command.crcRegion B binary.length) [n])))
      else
        MainOutcome.verificationFailed (flash_binary crc32 binary B dc ids
            ++ ids.map (fun n =>
              write_command (Command.crcRegion B binary.length) [n]))
          (ids.toFinset \
            (ids.filter
              (fun n => oracle n == some (crc32 binary))).toFinset)) := by
  have hcb := check_binary_total crc32 oracle binary B ids hresp
  unfold main_model
  rw [hcb.1, hcb.2]

lemma main_model_failed (crc32 : List Nat → Nat) (oracle : Nat → Option Nat)
    (binary : List Nat) (B : Nat) (dc : String) (run : Bool)
    (ids : List Nat) (hresp : ∀ n ∈ ids, (oracle n).isSome = true)
    (hfail : ¬ ∀ n ∈ ids, oracle n = some (crc32 binary)) :
    main_model crc32 oracle binary B dc run ids =
      MainOutcome.verificationFailed
        (flash_binary crc32 binary B dc ids
          ++ ids.map (fun n =>
            write_command (Command.crcRegion B binary.length) [n]))
        ((ids.filter
          (fun n => !(oracle n == some (crc32 binary)))).toFinset) := by
  have hne : ¬ (ids.filter
      (fun n => oracle n == some (crc32 binary))).toFinset
      = ids.toFinset := by
    intro he
    apply hfail
    intro n hn
    have h := (filter_toFinset_eq_iff ids
      (fun n => oracle n == some (crc32 binary))).mp he n hn
    exact eq_of_beq h
  rw [main_model_total crc32 oracle binary B dc run ids hresp, if_neg hne,
    toFinset_sdiff_filter]

lemma flash_binary_all_events (crc32 : List Nat → Nat) (binary : List Nat)
    (B : Nat) (dc : String) (dests : List Nat) (P : Nat) :
    ∀ e ∈ flash_binary crc32 binary B dc dests P,
      e.destinations = dests ∧ e.command.isCrcRegion = false
      ∧ e.command ≠ Command.jumpToMain := by
  intro e he
  unfold flash_binary config_update_and_save at he
  rcases List.mem_append.mp he with h | h
  · rcases List.mem_append.mp h with h' | h'
    · obtain ⟨i, _, rfl⟩ := List.mem_map.mp h'
      exact ⟨rfl, rfl, by simp [write_command]⟩
    · obtain ⟨oc, _, rfl⟩ := List.mem_map.mp h'
      exact ⟨rfl, rfl, by simp [write_command]⟩
  · simp only [List.mem_cons, List.not_mem_nil, or_false] at h
    rcases h with rfl | rfl
    · exact ⟨rfl, rfl, by simp [write_command]⟩
    · exact ⟨rfl, rfl, by simp [write_command]⟩

lemma main_model_trace_cases (crc32 : List Nat → Nat)
    (oracle : Nat → Option Nat) (binary : List Nat) (B : Nat) (dc : String)
    (run : Bool) (ids : List Nat) :
    (main_model crc32 oracle binary B dc run ids).trace =
      flash_binary crc32 binary B dc ids
        ++ (check_binary crc32 oracle binary B ids).1
        ++ [run_application ids]
    ∨ (main_model crc32 oracle binary B dc run ids).trace =
      flash_binary crc32 binary B dc ids
        ++ (check_binary crc32 oracle binary B ids).1 := by
  unfold main_model
  cases hc : (check_binary crc32 oracle binary B ids).2 with
  | none => right; rfl
  | some valid =>
    by_cases hv : valid.toFinset = ids.toFinset
    · dsimp only
      rw [if_pos hv]
      cases run
      · right; rfl
      · left; rfl
    · dsimp only
      rw [if_neg hv]
      right
      rfl

end MainLemmas

/-- C8: when every requested destination answers and every reported CRC
equals the image CRC32, the program completes with exit status 0; when at
least one destination's reported CRC differs, it takes the
`verification_failed` path, printing exactly the set of failing node IDs
and exiting with status 1. -/
theorem main_exit_codes (crc32 : List Nat → Nat) (oracle : Nat → Option Nat)
    (binary : List Nat) (B : Nat) (dc : String) (run : Bool)
    (ids : List Nat) (hresp : ∀ n ∈ ids, (oracle n).isSome = true) :
    ((∀ n ∈ ids, oracle n = some (crc32 binary)) →
      (main_model crc32 oracle binary B dc run ids).exitCode = some 0)
    ∧ ((¬ ∀ n ∈ ids, oracle n = some (crc32 binary)) →
      (main_model crc32 oracle binary B dc run ids).exitCode = some 1
      ∧ main_model crc32 oracle binary B dc run ids =
          MainOutcome.verificationFailed
            (flash_binary crc32 binary B dc ids
              ++ ids.map (fun n =>
                write_command (Command.crcRegion B binary.length) [n]))
            ((ids.filter
              (fun n => !(oracle n == some (crc32 binary)))).toFinset)) := by
  constructor
  · intro hall
    rw [main_model_total crc32 oracle binary B dc run ids hresp]
    rw [if_pos ((filter_toFinset_eq_iff ids
      (fun n => oracle n == some (crc32 binary))).mpr
      (fun n hn => by simp [hall n hn]))]
    cases run <;> rfl
  · intro hfail
    have h := main_model_failed crc32 oracle binary B dc run ids hresp hfail
    rw [h]
    exact ⟨rfl, rfl⟩

/-- Witness for C8 at concrete inputs covering both branches. -/
theorem main_exit_codes_witness :
    (∀ n ∈ [1], ((fun _ : Nat => some 5) n).isSome = true)
    ∧ (main_model (fun _ => 5) (fun _ => some 5) [0] 0 "d" false [1]).exitCode
      = some 0
    ∧ (∀ n ∈ [1], ((fun _ : Nat => some 6) n).isSome = true)
    ∧ (main_model (fun _ => 5) (fun _ => some 6) [0] 0 "d" false [1]).exitCode
      = some 1 :=
  ⟨by decide,
   (main_exit_codes (fun _ => 5) (fun _ => some 5) [0] 0 "d" false [1]
     (by decide)).1 (by decide),
   by decide,
   ((main_exit_codes (fun _ => 5) (fun _ => some 6) [0] 0 "d" false [1]
     (by decide)).2 (by decide)).1⟩

/-- C9: every command dispatched in a flashing session — every erase-page,
write-flash, the update-config, the save-config, and the optional
jump-to-main — targets exactly the destination list given at session
start; the only narrowing is the Verifier's crc-region commands, each of
which targets exactly one node of that list. -/
theorem session_destinations_invariant (crc32 : List Nat → Nat)
    (oracle : Nat → Option Nat) (binary : List Nat) (B : Nat) (dc : String)
    (run : Bool) (ids : List Nat) :
    ∀ e ∈ (main_model crc32 oracle binary B dc run ids).trace,
      (e.command.isCrcRegion = true → ∃ n ∈ ids, e.destinations = [n])
      ∧ (e.command.isCrcRegion = false → e.destinations = ids) := by
  intro e he
  have htr := main_model_trace_cases crc32 oracle binary B dc run ids
  have hcases : e ∈ flash_binary crc32 binary B dc ids
      ∨ e ∈ (check_binary crc32 oracle binary B ids).1
      ∨ e = run_application ids := by
    rcases htr with h | h <;> rw [h] at he
    · rcases List.mem_append.mp he with h' | h'
      · rcases List.mem_append.mp h' with h'' | h''
        · exact Or.inl h''
        · exact Or.inr (Or.inl h'')
      · simp only [List.mem_singleton] at h'
        exact Or.inr (Or.inr h')
    · rcases List.mem_append.mp he with h' | h'
      · exact Or.inl h'
      · exact Or.inr (Or.inl h')
  rcases hcases with h | h | h
  · obtain ⟨hd, hcr, _⟩ := flash_binary_all_events crc32 binary B dc ids 2048 e h
    constructor
    · intro hc
      rw [hcr] at hc
      exact Bool.noConfusion hc
    · intro _
      exact hd
  · obtain ⟨n, hn, rfl⟩ := check_binary_events crc32 oracle binary B ids e h
    constructor
    · intro _
      exact ⟨n, hn, rfl⟩
    · intro hc
      exact Bool.noConfusion hc
  · subst h
    constructor
    · intro hc
      exact Bool.noConfusion hc
    · intro _
      rfl

/-- Witness for C9 at a concrete input. -/
theorem session_destinations_invariant_witness :
    write_command (Command.updateConfig
        [("application_size", 0), ("application_crc", 5)]) [3] ∈
      (main_model (fun _ => 5) (fun _ => some 5) [] 0 "d" false [3]).trace
    ∧ (write_command (Command.updateConfig
        [("application_size", 0), ("application_crc", 5)]) [3]).destinations
      = [3] :=
  ⟨by decide,
   (session_destinations_invariant (fun _ => 5) (fun _ => some 5) [] 0 "d"
     false [3]
     (write_command (Command.updateConfig
       [("application_size", 0), ("application_crc", 5)]) [3])
     (by decide)).2 rfl⟩

/-- C10: when the run flag is set but verification does not succeed for
every destination (every node answers, at least one CRC differs), the
program takes the `verification_failed` path — nonempty failing set,
exit status 1 — and the jump-to-main command is never dispatched to any
destination, not even one that passed verification. -/
theorem no_run_after_failed_verification (crc32 : List Nat → Nat)
    (oracle : Nat → Option Nat) (binary : List Nat) (B : Nat) (dc : String)
    (ids : List Nat) (hresp : ∀ n ∈ ids, (oracle n).isSome = true)
    (hfail : ¬ ∀ n ∈ ids, oracle n = some (crc32 binary)) :
    (main_model crc32 oracle binary B dc true ids).exitCode = some 1
    ∧ (∃ failed : Finset Nat, failed.Nonempty ∧
        main_model crc32 oracle binary B dc true ids =
          MainOutcome.verificationFailed
            (main_model crc32 oracle binary B dc true ids).trace failed)
    ∧ ∀ e ∈ (main_model crc32 oracle binary B dc true ids).trace,
        e.command ≠ Command.jumpToMain := by
  have hm := main_model_failed crc32 oracle binary B dc true ids hresp hfail
  refine ⟨by rw [hm]; rfl, ?_, ?_⟩
  · refine ⟨(ids.filter
      (fun n => !(oracle n == some (crc32 binary)))).toFinset, ?_,
      by rw [hm]; rfl⟩
    push_neg at hfail
    obtain ⟨n, hn, hne⟩ := hfail
    refine ⟨n, List.mem_toFinset.mpr (List.mem_filter.mpr ⟨hn, ?_⟩)⟩
    rw [Bool.not_eq_true']
    rw [beq_eq_false_iff_ne]
    exact hne
  · intro e he
    rw [hm] at he
    rcases List.mem_append.mp he with h | h
    · exact (flash_binary_all_events crc32 binary B dc ids 2048 e h).2.2
    · obtain ⟨n, _, rfl⟩ := List.mem_map.mp h
      simp [write_command]

/-- Witness for C10 at a concrete input. -/
theorem no_run_after_failed_verification_witness :
    (∀ n ∈ [1], ((fun _ : Nat => some 6) n).isSome = true)
    ∧ (¬ ∀ n ∈ [1], (fun _ : Nat => some 6) n = some 5)
    ∧ (main_model (fun _ => 5) (fun _ => some 6) [0] 0 "d" true [1]).exitCode
      = some 1 :=
  ⟨by decide, by decide,
   (no_run_after_failed_verification (fun _ => 5) (fun _ => some 6) [0] 0 "d"
     [1] (by decide) (by decide)).1⟩
